import Mathlib

/-!
Shallow embedding of the Modbus slave example sketch
`examples/full/full.ino` of the ArduinoModbusSlave repository.

The sketch registers four callback handlers with an external Modbus
protocol engine.  Each handler is a straight-line loop over
`(function code, address, length)` that moves data between

  * the EEPROM, modelled byte-addressed as `Nat → Nat` (each cell a byte),
    with 16-bit words read and written little-endian at byte offset
    `index * 2` exactly as `EEPROM.get` / `EEPROM.put` do for `uint16_t`;
  * the digital pin modes and levels and the analog samples, modelled as
    functions from pin number;
  * the engine-owned request and response buffers, modelled as
    `Nat → Nat` (request words) and `Nat → Option α` (response slots,
    `none` meaning the slot was never written).

All 16-bit quantities of the sketch (`uint16_t` addresses, register
indices and register values) are carried as `Nat` and reduced `% 65536`
exactly where the C code's `uint16_t` arithmetic truncates.
-/

/-- Hardware pin modes of the Arduino core.  `INPUT_PULLUP` is never set
by the sketch; it is kept so that "the mode is left unchanged" is a
statement about an arbitrary prior hardware mode. -/
inductive PinMode where
  | INPUT
  | OUTPUT
  | INPUT_PULLUP
deriving DecidableEq, Repr

/-- `#define CTRL_PIN 8` of the sketch: the RS485 direction-control pin. -/
def CTRL_PIN : Nat := 8

/-- `#define PIN_MODE_INPUT 0` of the sketch. -/
def PIN_MODE_INPUT : Nat := 0

/-- `#define PIN_MODE_OUTPUT 1` of the sketch. -/
def PIN_MODE_OUTPUT : Nat := 1

/-- Modelled from the spec: the function-class code for Read Coils used by
the external ModbusSlave library (standard Modbus function code 1). -/
def FC_READ_COILS : Nat := 1

/-- Modelled from the spec: the function-class code for Read Discrete
Inputs of the external ModbusSlave library (standard Modbus code 2). -/
def FC_READ_DISCRETE_INPUT : Nat := 2

/-- Modelled from the spec: the function-class code for Read Holding
Registers of the external ModbusSlave library (standard Modbus code 3). -/
def FC_READ_HOLDING_REGISTERS : Nat := 3

/-- Modelled from the spec: the function-class code for Read Input
Registers of the external ModbusSlave library (standard Modbus code 4). -/
def FC_READ_INPUT_REGISTERS : Nat := 4

/-- Modelled from the spec: the function-class code for Write Single Coil
of the external ModbusSlave library (standard Modbus code 5). -/
def FC_WRITE_COIL : Nat := 5

/-- Modelled from the spec: the function-class code for Write Multiple
Holding Registers of the external ModbusSlave library (code 16). -/
def FC_WRITE_MULTIPLE_REGISTERS : Nat := 16

/-- The machine state visible to the sketch: EEPROM bytes, hardware pin
modes, digital pin levels, and the analog samples `analogRead` returns
(held fixed during a request). -/
structure SketchState where
  eeprom : Nat → Nat
  pinModes : Nat → PinMode
  pinLevels : Nat → Bool
  analog : Nat → Nat

/-- Pointwise update of a function, used for stores into EEPROM cells,
pin tables and response buffers. -/
def upd {α : Type} (f : Nat → α) (k : Nat) (v : α) : Nat → α :=
  fun n => if n = k then v else f n

/-- `EEPROM.get(addr, uint16_t&)`: read a 16-bit word from two bytes at
`addr`, little-endian (AVR object layout). -/
def EEPROMget16 (e : Nat → Nat) (addr : Nat) : Nat :=
  e addr % 256 + 256 * (e (addr + 1) % 256)

/-- `EEPROM.put(addr, uint16_t)`: write a 16-bit word as two bytes at
`addr`, little-endian. -/
def EEPROMput16 (e : Nat → Nat) (addr v : Nat) : Nat → Nat :=
  upd (upd e addr (v % 256)) (addr + 1) (v / 256 % 256)

/-- Backing-store get at word index `idx`, byte offset `idx * 2`, as done
by `readMemory` and the startup scan. -/
def storeGet (e : Nat → Nat) (idx : Nat) : Nat :=
  EEPROMget16 e (idx * 2)

/-- Backing-store put at word index `idx`, byte offset `idx * 2`, as done
by `writeMemory`. -/
def storePut (e : Nat → Nat) (idx v : Nat) : Nat → Nat :=
  EEPROMput16 e (idx * 2) v

/-- `slave.writeRegisterToBuffer(i, value)`: store a `uint16_t` value in
response word slot `i`. -/
def writeRegisterToBuffer (buf : Nat → Option Nat) (i v : Nat) : Nat → Option Nat :=
  upd buf i (some (v % 65536))

/-- `slave.writeCoilToBuffer(i, b)`: store one boolean in response bit
slot `i`. -/
def writeCoilToBuffer (buf : Nat → Option Bool) (i : Nat) (b : Bool) : Nat → Option Bool :=
  upd buf i (some b)

/-- `pinMode(p, m)`: the hardware mode-configuration primitive. -/
def pinModeSet (s : SketchState) (p : Nat) (m : PinMode) : SketchState :=
  { s with pinModes := upd s.pinModes p m }

/-- `readCoils(address, length)` of the sketch: for `i` in `[0,length)`
write `digitalRead(address + i)` to response bit `i`. -/
def readCoils (address length : Nat) (s : SketchState)
    (buf : Nat → Option Bool) : Nat → Option Bool :=
  (List.range length).foldl
    (fun b i => writeCoilToBuffer b i (s.pinLevels ((address + i) % 65536))) buf

/-- `readDigitalIn(fc, address, length)` of the sketch: on
`FC_READ_COILS` delegate to `readCoils`, otherwise run the identical
fall-through loop over `digitalRead`. -/
def readDigitalIn (fc address length : Nat) (s : SketchState)
    (buf : Nat → Option Bool) : Nat → Option Bool :=
  if fc = FC_READ_COILS then
    readCoils address length s buf
  else
    (List.range length).foldl
      (fun b i => writeCoilToBuffer b i (s.pinLevels ((address + i) % 65536))) buf

/-- `readAnalogIn(address, length)` of the sketch: for `i` in
`[0,length)` write `analogRead(address + i)` to response word `i`. -/
def readAnalogIn (address length : Nat) (s : SketchState)
    (buf : Nat → Option Nat) : Nat → Option Nat :=
  (List.range length).foldl
    (fun b i => writeRegisterToBuffer b i (s.analog ((address + i) % 65536))) buf

/-- `readMemory(fc, address, length)` of the sketch: on
`FC_READ_INPUT_REGISTERS` delegate to `readAnalogIn`, otherwise for `i`
in `[0,length)` write the EEPROM word at byte offset `(address + i) * 2`
to response word `i`. -/
def readMemory (fc address length : Nat) (s : SketchState)
    (buf : Nat → Option Nat) : Nat → Option Nat :=
  if fc = FC_READ_INPUT_REGISTERS then
    readAnalogIn address length s buf
  else
    (List.range length).foldl
      (fun b i => writeRegisterToBuffer b i (storeGet s.eeprom ((address + i) % 65536))) buf

/-- `writeDigitlOut(fc, address, status)` of the sketch (source spelling
kept): `digitalWrite(address, status)`, unconditionally. -/
def writeDigitlOut (fc address status : Nat) (s : SketchState) : SketchState :=
  { s with pinLevels := upd s.pinLevels (address % 65536) (decide (status ≠ 0)) }

/-- One iteration of the `writeMemory` loop at request slot `i`:
`registerIndex = address + i` (`uint16_t`), put the request word into the
EEPROM at byte offset `registerIndex * 2`, and if `registerIndex` is in
`(2, 14)` and not `CTRL_PIN`, reconfigure that pin's mode for value 0 or
1, leaving it unchanged for any other value. -/
def writeMemoryStep (address : Nat) (req : Nat → Nat) (s : SketchState)
    (i : Nat) : SketchState :=
  let registerIndex := (address + i) % 65536
  let value := req i % 65536
  let s1 : SketchState := { s with eeprom := storePut s.eeprom registerIndex value }
  if 2 < registerIndex ∧ registerIndex < 14 ∧ registerIndex ≠ CTRL_PIN then
    if value = PIN_MODE_INPUT then pinModeSet s1 registerIndex PinMode.INPUT
    else if value = PIN_MODE_OUTPUT then pinModeSet s1 registerIndex PinMode.OUTPUT
    else s1
  else s1

/-- `writeMemory(fc, address, length)` of the sketch: run
`writeMemoryStep` for `i` in `[0,length)`. -/
def writeMemory (fc address length : Nat) (req : Nat → Nat)
    (s : SketchState) : SketchState :=
  (List.range length).foldl (writeMemoryStep address req) s

/-- One iteration of the `setup()` pin-mode scan at pin `pinIndex`: read
the EEPROM word at byte offset `pinIndex * 2` and set the pin mode for
value 0 or 1, leaving it unchanged otherwise (the `switch` has no
default case). -/
def initStep (s : SketchState) (pinIndex : Nat) : SketchState :=
  let eepromValue := storeGet s.eeprom pinIndex
  if eepromValue = PIN_MODE_INPUT then pinModeSet s pinIndex PinMode.INPUT
  else if eepromValue = PIN_MODE_OUTPUT then pinModeSet s pinIndex PinMode.OUTPUT
  else s

/-- The `setup()` loop `for (pinIndex = 3; pinIndex < 14; pinIndex++)`:
apply `initStep` to pins 3 through 13 in order. -/
def initModes (s : SketchState) : SketchState :=
  [3, 4, 5, 6, 7, 8, 9, 10, 11, 12, 13].foldl initStep s

/-- The pin-mode part of `setup()`: the startup scan followed by the
unconditional `pinMode(CTRL_PIN, OUTPUT)`. -/
def setupPins (s : SketchState) : SketchState :=
  pinModeSet (initModes s) CTRL_PIN PinMode.OUTPUT

/-- The mode transformation one scan or write step applies to a pin given
the 16-bit value `v` governing it: 0 selects INPUT, 1 selects OUTPUT, any
other value keeps the prior mode `m`. -/
def applyStoredMode (e : Nat → Nat) (p : Nat) (m : PinMode) : PinMode :=
  if storeGet e p = PIN_MODE_INPUT then PinMode.INPUT
  else if storeGet e p = PIN_MODE_OUTPUT then PinMode.OUTPUT
  else m

theorem upd_self {α : Type} (f : Nat → α) (k : Nat) (v : α) : upd f k v k = v := by
  simp [upd]

theorem upd_ne {α : Type} (f : Nat → α) (k : Nat) (v : α) (n : Nat)
    (h : n ≠ k) : upd f k v n = f n := by
  simp [upd, h]

theorem storeGet_lt (e : Nat → Nat) (idx : Nat) : storeGet e idx < 65536 := by
  simp only [storeGet, EEPROMget16]
  omega

theorem foldl_upd_range {α : Type} (v : Nat → Option α) (buf : Nat → Option α)
    (len j : Nat) :
    ((List.range len).foldl (fun b i => upd b i (v i)) buf) j
      = if j < len then v j else buf j := by
  induction len with
  | zero => simp
  | succ n ih =>
    rw [List.range_succ, List.foldl_append]
    simp only [List.foldl_cons, List.foldl_nil]
    by_cases h : j = n
    · subst h
      simp [upd]
    · rw [upd_ne _ _ _ _ h, ih]
      by_cases h2 : j < n
      · have h3 : j < n + 1 := by omega
        simp [h2, h3]
      · have h3 : ¬ j < n + 1 := by omega
        simp [h2, h3]

theorem writeMemory_zero (fc a : Nat) (req : Nat → Nat) (s : SketchState) :
    writeMemory fc a 0 req s = s := rfl

theorem writeMemory_succ (fc a n : Nat) (req : Nat → Nat) (s : SketchState) :
    writeMemory fc a (n + 1) req s
      = writeMemoryStep a req (writeMemory fc a n req s) n := by
  simp [writeMemory, List.range_succ]

theorem writeMemoryStep_eeprom (a : Nat) (req : Nat → Nat) (s : SketchState)
    (i : Nat) :
    (writeMemoryStep a req s i).eeprom
      = storePut s.eeprom ((a + i) % 65536) (req i % 65536) := by
  unfold writeMemoryStep pinModeSet
  dsimp only
  split
  · split
    · rfl
    · split <;> rfl
  · rfl

theorem writeMemoryStep_pinModes (a : Nat) (req : Nat → Nat) (s : SketchState)
    (i p : Nat) :
    (writeMemoryStep a req s i).pinModes p
      = if (a + i) % 65536 = p ∧ 2 < p ∧ p < 14 ∧ p ≠ 8 then
          (if req i % 65536 = PIN_MODE_INPUT then PinMode.INPUT
           else if req i % 65536 = PIN_MODE_OUTPUT then PinMode.OUTPUT
           else s.pinModes p)
        else s.pinModes p := by
  unfold writeMemoryStep pinModeSet
  dsimp only
  simp only [CTRL_PIN]
  by_cases hp : (a + i) % 65536 = p
  · rw [hp]
    by_cases hc : 2 < p ∧ p < 14 ∧ p ≠ 8
    · rw [if_pos hc,
        if_pos (show p = p ∧ 2 < p ∧ p < 14 ∧ p ≠ 8 from ⟨rfl, hc⟩)]
      by_cases hv0 : req i % 65536 = PIN_MODE_INPUT
      · rw [if_pos hv0, if_pos hv0]
        simp [upd]
      · rw [if_neg hv0, if_neg hv0]
        by_cases hv1 : req i % 65536 = PIN_MODE_OUTPUT
        · rw [if_pos hv1, if_pos hv1]
          simp [upd]
        · rw [if_neg hv1, if_neg hv1]
    · rw [if_neg hc,
        if_neg (show ¬(p = p ∧ 2 < p ∧ p < 14 ∧ p ≠ 8) from fun h => hc h.2)]
  · conv_rhs =>
      rw [if_neg (show ¬((a + i) % 65536 = p ∧ 2 < p ∧ p < 14 ∧ p ≠ 8) from
        fun h => hp h.1)]
    split
    · by_cases hv0 : req i % 65536 = PIN_MODE_INPUT
      · rw [if_pos hv0]
        simp [upd, Ne.symm hp]
      · rw [if_neg hv0]
        by_cases hv1 : req i % 65536 = PIN_MODE_OUTPUT
        · rw [if_pos hv1]
          simp [upd, Ne.symm hp]
        · rw [if_neg hv1]
    · rfl

theorem writeMemory_pinModes_untouched (fc a len : Nat) (req : Nat → Nat)
    (s : SketchState) (p : Nat)
    (h : ∀ i, i < len → (a + i) % 65536 ≠ p) :
    (writeMemory fc a len req s).pinModes p = s.pinModes p := by
  revert h
  induction len with
  | zero => intro _; rfl
  | succ n ih =>
    intro h
    rw [writeMemory_succ, writeMemoryStep_pinModes]
    rw [if_neg (show ¬((a + n) % 65536 = p ∧ 2 < p ∧ p < 14 ∧ p ≠ 8) from
      fun hc => h n (by omega) hc.1)]
    exact ih (fun i hi => h i (by omega))

theorem writeMemory_mode_at (fc a len : Nat) (req : Nat → Nat)
    (s : SketchState) (p : Nat)
    (h3 : 3 ≤ p) (h13 : p ≤ 13) (h8 : p ≠ 8)
    (hlo : a ≤ p) (hhi : p < a + len) (hnw : a + len ≤ 65536) :
    (writeMemory fc a len req s).pinModes p
      = if req (p - a) % 65536 = PIN_MODE_INPUT then PinMode.INPUT
        else if req (p - a) % 65536 = PIN_MODE_OUTPUT then PinMode.OUTPUT
        else s.pinModes p := by
  revert hhi hnw
  induction len with
  | zero =>
    intro hhi _
    exact absurd hhi (by omega)
  | succ n ih =>
    intro hhi hnw
    rw [writeMemory_succ, writeMemoryStep_pinModes]
    by_cases hpn : p = a + n
    · have hr : (a + n) % 65536 = p := by
        rw [Nat.mod_eq_of_lt (by omega)]
        omega
      rw [if_pos (show (a + n) % 65536 = p ∧ 2 < p ∧ p < 14 ∧ p ≠ 8 from
        ⟨hr, by omega, by omega, h8⟩)]
      have hunt : (writeMemory fc a n req s).pinModes p = s.pinModes p := by
        apply writeMemory_pinModes_untouched
        intro i hi
        rw [Nat.mod_eq_of_lt (by omega)]
        omega
      have hpa : p - a = n := by omega
      rw [hpa, hunt]
    · have hr : (a + n) % 65536 ≠ p := by
        rw [Nat.mod_eq_of_lt (by omega)]
        omega
      rw [if_neg (show ¬((a + n) % 65536 = p ∧ 2 < p ∧ p < 14 ∧ p ≠ 8) from
        fun hc => hr hc.1)]
      exact ih (by omega) (by omega)

theorem initStep_eeprom (s : SketchState) (k : Nat) :
    (initStep s k).eeprom = s.eeprom := by
  unfold initStep pinModeSet
  dsimp only
  split
  · rfl
  · split <;> rfl

theorem initStep_pinModes (s : SketchState) (k p : Nat) :
    (initStep s k).pinModes p
      = if k = p then applyStoredMode s.eeprom p (s.pinModes p)
        else s.pinModes p := by
  unfold initStep pinModeSet applyStoredMode
  dsimp only
  by_cases hk : k = p
  · subst hk
    rw [if_pos rfl]
    by_cases h0 : storeGet s.eeprom k = PIN_MODE_INPUT
    · rw [if_pos h0, if_pos h0]
      simp [upd]
    · rw [if_neg h0, if_neg h0]
      by_cases h1 : storeGet s.eeprom k = PIN_MODE_OUTPUT
      · rw [if_pos h1, if_pos h1]
        simp [upd]
      · rw [if_neg h1, if_neg h1]
  · rw [if_neg hk]
    split
    · simp [upd, Ne.symm hk]
    · split
      · simp [upd, Ne.symm hk]
      · rfl

theorem applyStoredMode_idem (e : Nat → Nat) (p : Nat) (m : PinMode) :
    applyStoredMode e p (applyStoredMode e p m) = applyStoredMode e p m := by
  unfold applyStoredMode
  split
  · rfl
  · split <;> simp_all

theorem initFold_eeprom (l : List Nat) (s : SketchState) :
    (l.foldl initStep s).eeprom = s.eeprom := by
  induction l generalizing s with
  | nil => rfl
  | cons x xs ih =>
    simp only [List.foldl_cons]
    rw [ih, initStep_eeprom]

theorem initFold_pinModes (l : List Nat) (s : SketchState) (p : Nat) :
    (l.foldl initStep s).pinModes p
      = if p ∈ l then applyStoredMode s.eeprom p (s.pinModes p)
        else s.pinModes p := by
  induction l generalizing s with
  | nil => simp
  | cons x xs ih =>
    simp only [List.foldl_cons]
    rw [ih (initStep s x), initStep_eeprom, initStep_pinModes]
    by_cases hx : x = p
    · subst hx
      rw [if_pos rfl, if_pos (List.mem_cons_self x xs)]
      by_cases hm : x ∈ xs
      · rw [if_pos hm, applyStoredMode_idem]
      · rw [if_neg hm]
    · rw [if_neg hx]
      by_cases hm : p ∈ xs
      · rw [if_pos hm, if_pos (List.mem_cons_of_mem x hm)]
      · rw [if_neg hm, if_neg (show ¬ p ∈ x :: xs from fun hc => by
          rcases List.mem_cons.mp hc with h | h
          · exact hx h.symm
          · exact hm h)]

theorem readDigitalIn_any_fc (fc a len : Nat) (s : SketchState)
    (buf : Nat → Option Bool) :
    readDigitalIn fc a len s buf = readCoils a len s buf := by
  rw [readDigitalIn]
  split
  · rfl
  · rfl

theorem readMemory_holding_eval (a len : Nat) (s : SketchState)
    (buf : Nat → Option Nat) (j : Nat) :
    readMemory FC_READ_HOLDING_REGISTERS a len s buf j
      = if j < len then some (storeGet s.eeprom ((a + j) % 65536) % 65536)
        else buf j := by
  have h : readMemory FC_READ_HOLDING_REGISTERS a len s buf
      = (List.range len).foldl
          (fun b i => upd b i (some (storeGet s.eeprom ((a + i) % 65536) % 65536))) buf := by
    rw [readMemory, if_neg (by decide)]
    simp only [writeRegisterToBuffer]
  rw [h, foldl_upd_range]

theorem readMemory_input_eval (a len : Nat) (s : SketchState)
    (buf : Nat → Option Nat) (j : Nat) :
    readMemory FC_READ_INPUT_REGISTERS a len s buf j
      = if j < len then some (s.analog ((a + j) % 65536) % 65536)
        else buf j := by
  have h : readMemory FC_READ_INPUT_REGISTERS a len s buf
      = (List.range len).foldl
          (fun b i => upd b i (some (s.analog ((a + i) % 65536) % 65536))) buf := by
    rw [readMemory, if_pos rfl, readAnalogIn]
    simp only [writeRegisterToBuffer]
  rw [h, foldl_upd_range]

/-- C1: for every pin index `p` in `[3,13]` other than the control pin 8,
a Write Multiple Holding Registers request covering register `p` (no
16-bit wrap) sets pin `p`'s hardware mode to INPUT when the written value
is 0, to OUTPUT when it is 1, and leaves the mode unchanged for any other
16-bit value. -/
theorem writeMemory_pin_mode_spec (fc a len : Nat) (req : Nat → Nat)
    (s : SketchState) (p : Nat)
    (h3 : 3 ≤ p) (h13 : p ≤ 13) (h8 : p ≠ 8)
    (hlo : a ≤ p) (hhi : p < a + len) (hnw : a + len ≤ 65536) :
    (writeMemory fc a len req s).pinModes p
      = if req (p - a) % 65536 = PIN_MODE_INPUT then PinMode.INPUT
        else if req (p - a) % 65536 = PIN_MODE_OUTPUT then PinMode.OUTPUT
        else s.pinModes p :=
  writeMemory_mode_at fc a len req s p h3 h13 h8 hlo hhi hnw

/-- Witness for C1 at a concrete request: address 3, length 5, request
words `[0, 5, 1, 5, 5]`, every prior mode INPUT_PULLUP.  Pin 3 receives
value 0 and becomes INPUT, pin 5 receives value 1 and becomes OUTPUT,
pin 7 receives value 5 and keeps its prior mode. -/
theorem writeMemory_pin_mode_spec_witness :
    (writeMemory 16 3 5 (fun i => if i = 0 then 0 else if i = 2 then 1 else 5)
        ⟨fun _ => 0, fun _ => PinMode.INPUT_PULLUP, fun _ => false, fun _ => 0⟩).pinModes 3
      = PinMode.INPUT ∧
    (writeMemory 16 3 5 (fun i => if i = 0 then 0 else if i = 2 then 1 else 5)
        ⟨fun _ => 0, fun _ => PinMode.INPUT_PULLUP, fun _ => false, fun _ => 0⟩).pinModes 5
      = PinMode.OUTPUT ∧
    (writeMemory 16 3 5 (fun i => if i = 0 then 0 else if i = 2 then 1 else 5)
        ⟨fun _ => 0, fun _ => PinMode.INPUT_PULLUP, fun _ => false, fun _ => 0⟩).pinModes 7
      = PinMode.INPUT_PULLUP := by
  refine ⟨?_, ?_, ?_⟩
  · have h := writeMemory_pin_mode_spec 16 3 5
      (fun i => if i = 0 then 0 else if i = 2 then 1 else 5)
      ⟨fun _ => 0, fun _ => PinMode.INPUT_PULLUP, fun _ => false, fun _ => 0⟩ 3
      (by norm_num) (by norm_num) (by norm_num) (by norm_num) (by norm_num) (by norm_num)
    simpa [PIN_MODE_INPUT, PIN_MODE_OUTPUT] using h
  · have h := writeMemory_pin_mode_spec 16 3 5
      (fun i => if i = 0 then 0 else if i = 2 then 1 else 5)
      ⟨fun _ => 0, fun _ => PinMode.INPUT_PULLUP, fun _ => false, fun _ => 0⟩ 5
      (by norm_num) (by norm_num) (by norm_num) (by norm_num) (by norm_num) (by norm_num)
    simpa [PIN_MODE_INPUT, PIN_MODE_OUTPUT] using h
  · have h := writeMemory_pin_mode_spec 16 3 5
      (fun i => if i = 0 then 0 else if i = 2 then 1 else 5)
      ⟨fun _ => 0, fun _ => PinMode.INPUT_PULLUP, fun _ => false, fun _ => 0⟩ 7
      (by norm_num) (by norm_num) (by norm_num) (by norm_num) (by norm_num) (by norm_num)
    simpa [PIN_MODE_INPUT, PIN_MODE_OUTPUT] using h

/-- C2: no Write Multiple Holding Registers request ever changes the
hardware mode of the control pin (pin 8), whatever address, length and
request values it carries. -/
theorem writeMemory_preserves_ctrl_pin_mode (fc a len : Nat) (req : Nat → Nat)
    (s : SketchState) :
    (writeMemory fc a len req s).pinModes CTRL_PIN = s.pinModes CTRL_PIN := by
  induction len with
  | zero => rfl
  | succ n ih =>
    rw [writeMemory_succ, writeMemoryStep_pinModes]
    rw [if_neg (show ¬((a + n) % 65536 = CTRL_PIN ∧ 2 < CTRL_PIN ∧
        CTRL_PIN < 14 ∧ CTRL_PIN ≠ 8) from fun hc => hc.2.2.2 rfl)]
    exact ih

/-- C3: a Write Multiple Holding Registers request with address 3,
length 2 and request words `[0, 1]` sets pin 3 to INPUT and pin 4 to
OUTPUT, and afterwards the backing store holds 0 at word index 3 and 1
at word index 4. -/
theorem writeMemory_scenario_3_4 (fc : Nat) (s : SketchState) :
    (writeMemory fc 3 2 (fun i => if i = 0 then 0 else 1) s).pinModes 3
      = PinMode.INPUT ∧
    (writeMemory fc 3 2 (fun i => if i = 0 then 0 else 1) s).pinModes 4
      = PinMode.OUTPUT ∧
    storeGet (writeMemory fc 3 2 (fun i => if i = 0 then 0 else 1) s).eeprom 3 = 0 ∧
    storeGet (writeMemory fc 3 2 (fun i => if i = 0 then 0 else 1) s).eeprom 4 = 1 := by
  have hsteps : writeMemory fc 3 2 (fun i => if i = 0 then 0 else 1) s
      = writeMemoryStep 3 (fun i => if i = 0 then 0 else 1)
          (writeMemoryStep 3 (fun i => if i = 0 then 0 else 1) s 0) 1 := by
    have hr2 : List.range 2 = [0, 1] := rfl
    simp [writeMemory, hr2]
  refine ⟨?_, ?_, ?_, ?_⟩
  · rw [hsteps, writeMemoryStep_pinModes, writeMemoryStep_pinModes]
    norm_num [PIN_MODE_INPUT, PIN_MODE_OUTPUT]
  · rw [hsteps, writeMemoryStep_pinModes, writeMemoryStep_pinModes]
    norm_num [PIN_MODE_INPUT, PIN_MODE_OUTPUT]
  · rw [hsteps, writeMemoryStep_eeprom, writeMemoryStep_eeprom]
    norm_num [storeGet, storePut, EEPROMget16, EEPROMput16, upd]
  · rw [hsteps, writeMemoryStep_eeprom, writeMemoryStep_eeprom]
    norm_num [storeGet, storePut, EEPROMget16, EEPROMput16, upd]

/-- C4: for every in-range word index and every 16-bit value, a
backing-store put followed by a backing-store get at the same index
returns the value written. -/
theorem store_put_get_roundtrip (e : Nat → Nat) (idx v : Nat)
    (hidx : idx < 65536) (hv : v < 65536) :
    storeGet (storePut e idx v) idx = v := by
  simp only [storeGet, storePut, EEPROMget16, EEPROMput16, upd]
  split_ifs <;> omega

/-- Witness for C4: writing 43981 at word index 5 of an all-zero store
and reading word index 5 back returns 43981. -/
theorem store_put_get_roundtrip_witness :
    (5 : Nat) < 65536 ∧ (43981 : Nat) < 65536 ∧
    storeGet (storePut (fun _ => 0) 5 43981) 5 = 43981 :=
  ⟨by norm_num, by norm_num,
   store_put_get_roundtrip (fun _ => 0) 5 43981 (by norm_num) (by norm_num)⟩

/-- C5: the Read Coils path and the Read Discrete Inputs fall-through
path of `readDigitalIn` produce identical response buffers on every
address, length and pin state; both equal `readCoils`. -/
theorem readCoils_discreteInputs_agree (a len : Nat) (s : SketchState)
    (buf : Nat → Option Bool) :
    readDigitalIn FC_READ_COILS a len s buf
      = readDigitalIn FC_READ_DISCRETE_INPUT a len s buf ∧
    readDigitalIn FC_READ_COILS a len s buf = readCoils a len s buf :=
  ⟨(readDigitalIn_any_fc FC_READ_COILS a len s buf).trans
     (readDigitalIn_any_fc FC_READ_DISCRETE_INPUT a len s buf).symm,
   readDigitalIn_any_fc FC_READ_COILS a len s buf⟩

/-- C6: a Read Holding Registers request answers slot `i` with the
backing-store word at index `address + i` for every `i < length`, and
writes no other response slot. -/
theorem readHoldingRegisters_spec (a len : Nat) (s : SketchState)
    (buf : Nat → Option Nat) (hnw : a + len ≤ 65536) :
    (∀ i, i < len →
      readMemory FC_READ_HOLDING_REGISTERS a len s buf i
        = some (storeGet s.eeprom (a + i))) ∧
    (∀ j, len ≤ j → readMemory FC_READ_HOLDING_REGISTERS a len s buf j = buf j) := by
  constructor
  · intro i hi
    rw [readMemory_holding_eval, if_pos hi,
      Nat.mod_eq_of_lt (show a + i < 65536 by omega),
      Nat.mod_eq_of_lt (storeGet_lt s.eeprom (a + i))]
  · intro j hj
    rw [readMemory_holding_eval, if_neg (by omega)]

/-- Witness for C6: on a store whose bytes are all 7, a request with
address 0 and length 1 answers slot 0 with 7 + 256 * 7 = 1799 and leaves
slot 3 unwritten. -/
theorem readHoldingRegisters_spec_witness :
    (0 : Nat) + 1 ≤ 65536 ∧
    readMemory FC_READ_HOLDING_REGISTERS 0 1
        ⟨fun _ => 7, fun _ => PinMode.INPUT, fun _ => false, fun _ => 0⟩
        (fun _ => none) 0 = some 1799 ∧
    readMemory FC_READ_HOLDING_REGISTERS 0 1
        ⟨fun _ => 7, fun _ => PinMode.INPUT, fun _ => false, fun _ => 0⟩
        (fun _ => none) 3 = none := by
  refine ⟨by norm_num, ?_, ?_⟩
  · have h := (readHoldingRegisters_spec 0 1
      ⟨fun _ => 7, fun _ => PinMode.INPUT, fun _ => false, fun _ => 0⟩
      (fun _ => none) (by norm_num)).1 0 (by norm_num)
    rw [h]
    norm_num [storeGet, EEPROMget16]
  · exact (readHoldingRegisters_spec 0 1
      ⟨fun _ => 7, fun _ => PinMode.INPUT, fun _ => false, fun _ => 0⟩
      (fun _ => none) (by norm_num)).2 3 (by norm_num)

/-- C7: a Read Input Registers request answers slot `i` with the analog
sample at pin `address + i` for every `i < length` (samples being 16-bit
values, as hardware samples are). -/
theorem readInputRegisters_spec (a len : Nat) (s : SketchState)
    (buf : Nat → Option Nat) (hnw : a + len ≤ 65536)
    (hA : ∀ p, s.analog p < 65536) :
    ∀ i, i < len →
      readMemory FC_READ_INPUT_REGISTERS a len s buf i
        = some (s.analog (a + i)) := by
  intro i hi
  rw [readMemory_input_eval, if_pos hi,
    Nat.mod_eq_of_lt (show a + i < 65536 by omega),
    Nat.mod_eq_of_lt (hA (a + i))]

/-- Witness for C7: with analog samples `p + 100` (mod 65536), a request
with address 0 and length 3 answers slots 0, 1, 2 with the samples of
pins 0, 1, 2. -/
theorem readInputRegisters_spec_witness :
    readMemory FC_READ_INPUT_REGISTERS 0 3
        ⟨fun _ => 0, fun _ => PinMode.INPUT, fun _ => false, fun p => (p + 100) % 65536⟩
        (fun _ => none) 0 = some 100 ∧
    readMemory FC_READ_INPUT_REGISTERS 0 3
        ⟨fun _ => 0, fun _ => PinMode.INPUT, fun _ => false, fun p => (p + 100) % 65536⟩
        (fun _ => none) 1 = some 101 ∧
    readMemory FC_READ_INPUT_REGISTERS 0 3
        ⟨fun _ => 0, fun _ => PinMode.INPUT, fun _ => false, fun p => (p + 100) % 65536⟩
        (fun _ => none) 2 = some 102 := by
  refine ⟨?_, ?_, ?_⟩
  · have h := readInputRegisters_spec 0 3
      ⟨fun _ => 0, fun _ => PinMode.INPUT, fun _ => false, fun p => (p + 100) % 65536⟩
      (fun _ => none) (by norm_num) (fun p => Nat.mod_lt _ (by norm_num)) 0 (by norm_num)
    simpa using h
  · have h := readInputRegisters_spec 0 3
      ⟨fun _ => 0, fun _ => PinMode.INPUT, fun _ => false, fun p => (p + 100) % 65536⟩
      (fun _ => none) (by norm_num) (fun p => Nat.mod_lt _ (by norm_num)) 1 (by norm_num)
    simpa using h
  · have h := readInputRegisters_spec 0 3
      ⟨fun _ => 0, fun _ => PinMode.INPUT, fun _ => false, fun p => (p + 100) % 65536⟩
      (fun _ => none) (by norm_num) (fun p => Nat.mod_lt _ (by norm_num)) 2 (by norm_num)
    simpa using h

/-- C8: the startup scan visits exactly pins 3 through 13, reads each
pin's mode word from the backing store at word index equal to the pin
number (byte offset pin * 2), sets INPUT on 0 and OUTPUT on 1, and for
any other stored word leaves the pin's prior hardware mode unchanged;
every other pin is untouched. -/
theorem initModes_spec (s : SketchState) (p : Nat) :
    (initModes s).pinModes p
      = if 3 ≤ p ∧ p ≤ 13 then
          (if storeGet s.eeprom p = PIN_MODE_INPUT then PinMode.INPUT
           else if storeGet s.eeprom p = PIN_MODE_OUTPUT then PinMode.OUTPUT
           else s.pinModes p)
        else s.pinModes p := by
  rw [initModes, initFold_pinModes]
  have hmem : (p ∈ [3, 4, 5, 6, 7, 8, 9, 10, 11, 12, 13]) ↔ (3 ≤ p ∧ p ≤ 13) := by
    simp
    omega
  by_cases hm : 3 ≤ p ∧ p ≤ 13
  · rw [if_pos (hmem.mpr hm), if_pos hm]
    rfl
  · rw [if_neg (fun h => hm (hmem.mp h)), if_neg hm]

/-- C9 fails as stated: for the Write Single Coil function class the
third request field is the coil status, not a length, and the handler
writes the addressed pin unconditionally.  Concretely, with pin 5
initially HIGH, a Write Single Coil request with address 5 and
status field 0 drives pin 5 LOW, changing the pin outputs. -/
theorem write_coil_status_zero_changes_pins :
    (writeDigitlOut FC_WRITE_COIL 5 0
        ⟨fun _ => 0, fun _ => PinMode.INPUT, fun _ => true, fun _ => 0⟩).pinLevels 5
      ≠ (⟨fun _ => 0, fun _ => PinMode.INPUT, fun _ => true, fun _ => 0⟩
          : SketchState).pinLevels 5 := by
  simp [writeDigitlOut, upd]

/-- C9 amended: for the three handlers whose third field is a length —
read digital (coils and discrete inputs), read memory (holding and input
registers), and write memory — a request of length 0 leaves the response
buffer and the entire machine state unchanged.  The Write Single Coil
handler is excluded: its third field is a coil status, and it performs a
digital write unconditionally. -/
theorem length_zero_noop (fc a : Nat) (req : Nat → Nat) (s : SketchState)
    (bbuf : Nat → Option Bool) (wbuf : Nat → Option Nat) :
    readDigitalIn fc a 0 s bbuf = bbuf ∧
    readMemory fc a 0 s wbuf = wbuf ∧
    writeMemory fc a 0 req s = s := by
  refine ⟨?_, ?_, rfl⟩
  · rw [readDigitalIn]
    split
    · rfl
    · rfl
  · rw [readMemory]
    split
    · rfl
    · rfl

/-- C10: after `setup()` the control pin's hardware mode is OUTPUT
whatever word the backing store holds at index 8: the startup scan does
apply the stored word to pin 8 like any other scanned pin, but the mode
is then unconditionally overwritten with OUTPUT. -/
theorem setupPins_ctrl_pin_output (s : SketchState) :
    (setupPins s).pinModes CTRL_PIN = PinMode.OUTPUT ∧
    (initModes s).pinModes CTRL_PIN
      = applyStoredMode s.eeprom CTRL_PIN (s.pinModes CTRL_PIN) := by
  constructor
  · simp [setupPins, pinModeSet, upd]
  · rw [initModes, initFold_pinModes, if_pos (by decide)]
